import Mathlib

/-!
# qpymenu — verification of the menu navigation state machine

A shallow embedding of `src/qpymenu/qpymenu.py` (classes `pyMenu`,
`pyMenuItem`) and `src/qpymenu/terminal.py` (class `Terminal`).

Modelling choices:
* The static menu tree (names, orientations `'H'`/`'V'`, child lists) is an
  inductive `Node`; it is never mutated during navigation (children are
  attached before `show` runs), so it is a fixed parameter of the step
  function.
* The per-object mutable field `_current_index` is modelled as a heap
  function `idx : List Nat → Int` from a node's path (child positions from
  the root) to its current index.  `pyMenu._current_menu` of the root object
  (the focused menu) is the `cur` field; Python's
  `self._current_menu = self._current_menu._parent` at the root produces
  `None`, modelled as `cur = none` (the next loop iteration crashes with an
  `AttributeError` on `None._draw()`).
* A step either continues (`StepRes.cont`, with the list of draw / erase /
  execute side effects the handler performed) or raises an uncaught Python
  exception (`StepRes.crash`: `IndexError` from `list(keys)[i]`,
  `AttributeError` from `item._is_valid` on a `pyMenuItem`, or
  `None._draw()` after `_current_menu` became `None`).  `pyMenu.show` is
  `while True:` with no `break` or `return` in the body, so there is no
  normal-exit constructor.
-/

/-- `pyMenu._type`: `'H'` (horizontal bar) or `'V'` (drop-down). -/
inductive MType where
  | H
  | V
deriving DecidableEq, Repr

/-- A node of the menu tree: `pyMenu` (with its ordered `_items` values) or
`pyMenuItem`.  Only the structure-static fields appear here; the mutable
`_current_index` lives in `NavState.idx`. -/
inductive Node where
  | menu (name : String) (mtype : MType) (children : List Node)
  | item (name : String)

/-- Look up the node at a path of child positions (root is `[]`). -/
def nodeAt : List Nat → Node → Option Node
  | [], n => some n
  | i :: p, Node.menu _ _ cs =>
    match cs.get? i with
    | some c => nodeAt p c
    | none => none
  | _ :: _, Node.item _ => none

/-- The menu at a path, split into its fields (`none` if the path is dead or
points at a `pyMenuItem`). -/
def menuAt (t : Node) (p : List Nat) : Option (String × MType × List Node) :=
  match nodeAt p t with
  | some (Node.menu nm ty cs) => some (nm, ty, cs)
  | _ => none

/-- Python list indexing semantics for `list(self._items.keys())[i]`:
negative indices count from the end; out-of-range raises `IndexError`
(`none`).  Returns the normalised (non-negative) position. -/
def pyIndexPos (len : Nat) (i : Int) : Option Nat :=
  if 0 ≤ i then
    if i < (len : Int) then some i.toNat else none
  else
    if 0 ≤ i + (len : Int) then some (i + (len : Int)).toNat else none

/-- The mutable navigation state: `_current_index` of every `pyMenu` (by
path) and the root object's `_current_menu` pointer (`none` once it has been
set to Python `None`). -/
structure NavState where
  idx : List Nat → Int
  cur : Option (List Nat)

/-- Point update of the index heap (one `self._current_index = v`). -/
def setIdx (f : List Nat → Int) (p : List Nat) (v : Int) : List Nat → Int :=
  fun q => if q = p then v else f q

/-- `self._current_menu = self._current_menu._parent`: `None` at the root. -/
def parentPath : List Nat → Option (List Nat)
  | [] => none
  | p => some p.dropLast

/-- Terminal side effects a key handler performs. -/
inductive Ev where
  | draw (p : List Nat)
  | erase (p : List Nat)
  | exec (name : String)
deriving DecidableEq, Repr

/-- Logical keys delivered by `read_key` to the `show` loop. -/
inductive Key where
  | up
  | down
  | left
  | right
  | enter
  | esc
  | ch (c : Char)
deriving DecidableEq, Repr

/-- Result of handling one key: the loop continues with a new state (and the
recorded side effects), or an uncaught exception aborts `show`. -/
inductive StepRes where
  | cont (s : NavState) (evs : List Ev)
  | crash

/-- `pyMenu.colapse_menu_tree` effect on the index heap: starting at path
`p`, while the node has a parent, `_erase` it (its `_current_index`
becomes `-1`) and recurse on the parent.  The root (`_parent is None`) is
never erased. -/
def colapseIdx : (List Nat → Int) → List Nat → (List Nat → Int)
  | f, [] => f
  | f, i :: rest => colapseIdx (setIdx f (i :: rest) (-1)) (i :: rest).dropLast
termination_by _f p => p.length
decreasing_by
  simp [List.length_dropLast]

/-- The `_erase` events emitted by `colapse_menu_tree` from path `p` up. -/
def colapseEvs : List Nat → List Ev
  | [] => []
  | i :: rest => Ev.erase (i :: rest) :: colapseEvs (i :: rest).dropLast
termination_by p => p.length
decreasing_by
  simp [List.length_dropLast]

/-- `pyMenu._get_current_item` called on the root object while the focused
menu (path `p`) has children `cs`:
`item = self._current_menu._items.get(list(...keys())[idx], None)` (the
positional fetch, `IndexError = none` propagating as a crash), then
`if self._current_index == -1: return None` — the check reads the ROOT
object's index, not the focused menu's. -/
def getCurrentItem (s : NavState) (p : List Nat) (cs : List Node) :
    Option (Option (Nat × Node)) :=
  match pyIndexPos cs.length (s.idx p) with
  | none => none
  | some j =>
    match cs.get? j with
    | none => none
    | some c => if s.idx [] = -1 then some none else some (some (j, c))

/-- `pyMenu._on_up` (source lines 380-390). -/
def onUp (t : Node) (s : NavState) (p : List Nat) : StepRes :=
  match menuAt t p with
  | none => StepRes.crash
  | some (_, MType.H, _) => StepRes.cont s []
  | some (_, MType.V, _) =>
    -- `_dec_current_index` on a 'V' menu returns False iff index ≤ 0,
    -- leaving the index unchanged; otherwise it decrements.
    if s.idx p ≤ 0 then
      StepRes.cont ⟨setIdx s.idx p (-1), parentPath p⟩ [Ev.erase p]
    else
      StepRes.cont ⟨setIdx s.idx p (s.idx p - 1), some p⟩ [Ev.draw p]

/-- `pyMenu._on_down` (source lines 392-405).  On a horizontal menu
`item._is_valid` is an `AttributeError` when the selected child is a
`pyMenuItem` (that class has no `_is_valid`). -/
def onDown (t : Node) (s : NavState) (p : List Nat) : StepRes :=
  match menuAt t p with
  | none => StepRes.crash
  | some (_, MType.H, cs) =>
    match getCurrentItem s p cs with
    | none => StepRes.crash
    | some none => StepRes.cont s []
    | some (some (_, Node.item _)) => StepRes.crash
    | some (some (j, Node.menu _ _ ccs)) =>
      if ccs.length > 0 then
        StepRes.cont ⟨s.idx, some (p ++ [j])⟩ [Ev.draw (p ++ [j])]
      else StepRes.cont s []
  | some (_, MType.V, cs) =>
    -- status write, `_inc_current_index` (advance iff idx < len-1), redraw
    StepRes.cont
      ⟨setIdx s.idx p
        (if s.idx p < (cs.length : Int) - 1 then s.idx p + 1 else s.idx p),
       some p⟩ [Ev.draw p]

/-- `pyMenu._on_left` (source lines 407-415). -/
def onLeft (t : Node) (s : NavState) (p : List Nat) : StepRes :=
  match menuAt t p with
  | none => StepRes.crash
  | some (_, MType.H, _) =>
    -- `_dec_current_index` on an 'H' menu: index ≤ 0 snaps to 0, else -1
    if s.idx p ≤ 0 then
      StepRes.cont ⟨setIdx s.idx p 0, some p⟩ []
    else
      StepRes.cont ⟨setIdx s.idx p (s.idx p - 1), some p⟩ []
  | some (_, MType.V, _) =>
    if s.idx p = 0 ∨ s.idx p = -1 then
      StepRes.cont ⟨setIdx s.idx p (-1), parentPath p⟩ [Ev.erase p]
    else StepRes.cont s []

/-- `pyMenu._on_right` (source lines 417-429). -/
def onRight (t : Node) (s : NavState) (p : List Nat) : StepRes :=
  match menuAt t p with
  | none => StepRes.crash
  | some (_, MType.H, cs) =>
    -- `_inc_current_index`
    if s.idx p < (cs.length : Int) - 1 then
      StepRes.cont ⟨setIdx s.idx p (s.idx p + 1), some p⟩ []
    else StepRes.cont s []
  | some (_, MType.V, cs) =>
    match getCurrentItem s p cs with
    | none => StepRes.crash
    | some item? =>
      if s.idx p = -1 then
        StepRes.cont ⟨setIdx s.idx p 0, some p⟩ []
      else
        match item? with
        | some (j, Node.menu _ _ ccs) =>
          if ccs.length > 0 then
            StepRes.cont ⟨s.idx, some (p ++ [j])⟩ [Ev.draw (p ++ [j])]
          else StepRes.cont s []
        | _ => StepRes.cont s []

/-- `pyMenu._on_enter` (source lines 431-451).  The `pyMenuItem` branch
collapses the menu tree, executes the item, resets `_current_menu` to the
root object (`self`) and redraws it. -/
def onEnter (t : Node) (s : NavState) (p : List Nat) : StepRes :=
  match menuAt t p with
  | none => StepRes.crash
  | some (_, MType.H, cs) =>
    match getCurrentItem s p cs with
    | none => StepRes.crash
    | some none => StepRes.cont s []
    | some (some (_, Node.item _)) => StepRes.crash
    | some (some (j, Node.menu _ _ ccs)) =>
      if ccs.length > 0 then
        StepRes.cont ⟨s.idx, some (p ++ [j])⟩ [Ev.draw (p ++ [j])]
      else StepRes.cont s []
  | some (_, MType.V, cs) =>
    match getCurrentItem s p cs with
    | none => StepRes.crash
    | some item? =>
      if s.idx p = -1 then
        StepRes.cont ⟨setIdx s.idx p 0, some p⟩ []
      else
        match item? with
        | some (j, Node.menu _ _ ccs) =>
          if ccs.length > 0 then
            StepRes.cont ⟨s.idx, some (p ++ [j])⟩ [Ev.draw (p ++ [j])]
          else StepRes.cont s []
        | some (_, Node.item nm) =>
          StepRes.cont ⟨colapseIdx s.idx p, some []⟩
            (colapseEvs p ++ [Ev.exec nm, Ev.draw []])
        | none => StepRes.cont s []

/-- One iteration of the `while True:` body of `pyMenu.show` (source lines
456-474): draw the focused menu (crashing if `_current_menu` is `None`),
read one key, dispatch on the five handled key names.  `ESC`, printable
characters and unrecognised keys match no branch, so the loop just
continues — there is no exit. -/
def step (t : Node) (s : NavState) (k : Key) : StepRes :=
  match s.cur with
  | none => StepRes.crash
  | some p =>
    match k with
    | Key.up => onUp t s p
    | Key.right => onRight t s p
    | Key.left => onLeft t s p
    | Key.down => onDown t s p
    | Key.enter => onEnter t s p
    | Key.esc => StepRes.cont s []
    | Key.ch _ => StepRes.cont s []

/-- The state in which `show` starts: every `_current_index` is `-1` (as
set by `pyMenu.__init__` and never touched by `add_item`) and
`_current_menu` is the root object itself. -/
def initState : NavState := ⟨fun _ => -1, some []⟩

/-- `show` runs its loop only when the root is `_is_valid` (has at least
one child). -/
def rootValid (t : Node) : Prop :=
  ∃ nm ty cs, t = Node.menu nm ty cs ∧ cs ≠ []

/-- States reachable by the `show` loop from the initial state. -/
inductive Reach (t : Node) : NavState → Prop where
  | init : Reach t initState
  | next {s s' : NavState} {k : Key} {evs : List Ev} :
      Reach t s → step t s k = StepRes.cont s' evs → Reach t s'

/-! ## The navigation invariants (spec §3 and §8)

`IdxInv`: every menu's `_current_index` is `-1` or a valid child index.
`OffInv`: every path off the focus path holds index `-1`.
`CurInv`: every prefix of the focus path is a menu with at least one child
(the root is checked by `show`; submenus are only entered through
`_is_valid`). -/

def IdxInv (t : Node) (s : NavState) : Prop :=
  ∀ p nm ty cs, nodeAt p t = some (Node.menu nm ty cs) →
    -1 ≤ s.idx p ∧ s.idx p < (cs.length : Int)

def OffInv (s : NavState) : Prop :=
  ∀ c, s.cur = some c → ∀ p, ¬ p <+: c → s.idx p = -1

def CurInv (t : Node) (s : NavState) : Prop :=
  ∀ c, s.cur = some c → ∀ q, q <+: c →
    ∃ nm ty cs, nodeAt q t = some (Node.menu nm ty cs) ∧ cs ≠ []

def NavInv (t : Node) (s : NavState) : Prop :=
  IdxInv t s ∧ OffInv s ∧ CurInv t s

/-! ## Concrete demonstration trees and states (spec §8 scenario shape) -/

/-- Root horizontal bar `root` with one drop-down `File` holding the action
item `Exit`. -/
def demoTree : Node :=
  Node.menu "root" MType.H [Node.menu "File" MType.V [Node.item "Exit"]]

/-- Index heap after entering `File` from the root (root selected 0,
`File` selected 0). -/
def demoIdx : List Nat → Int :=
  fun q => if q = [] then 0 else if q = [0] then 0 else -1

/-- State focused on the `File` drop-down with its item `Exit` selected. -/
def demoStateFile : NavState := ⟨demoIdx, some [0]⟩

/-- State focused at the root bar with the submenu `File` selected. -/
def demoStateRoot : NavState :=
  ⟨fun q => if q = [] then 0 else -1, some []⟩

/-! ## `pyMenu.add_item` (claim C5) -/

/-- A child as `add_item` sees it: its name, its `_index`, and whether its
`_parent` is set. -/
structure AChild where
  name : String
  index : Int
  hasParent : Bool
deriving DecidableEq, Repr

/-- The `pyMenu` fields `add_item` reads or writes: `_items` (an
insertion-ordered dict — assignment to an existing key replaces the value
in place, keeping its position) and `_width`. -/
structure AMenu where
  name : String
  width : Nat
  items : List (String × AChild)
deriving DecidableEq, Repr

/-- `OrderedDict` assignment `self._items[item.name] = item`. -/
def odSet (k : String) (v : AChild) :
    List (String × AChild) → List (String × AChild)
  | [] => [(k, v)]
  | (k', v') :: rest =>
    if k' = k then (k, v) :: rest else (k', v') :: odSet k v rest

/-- `pyMenu.add_item` (source lines 245-251).  There is no failure path
(the source carries a `TODO check for overwrite` comment): it sets
`item._index = len(self._items)` BEFORE insertion, stores the item under
its name, recomputes `_width = max(_width, len(name) + 4)` and re-parents
the child unconditionally.  Returns the updated menu and child. -/
def add_item (m : AMenu) (it : AChild) : AMenu × AChild :=
  ({ name := m.name
     width := max m.width (it.name.length + 4)
     items := odSet it.name
       { name := it.name, index := (m.items.length : Int), hasParent := true }
       m.items },
   { name := it.name, index := (m.items.length : Int), hasParent := true })

/-! ## `pyMenuItem.execute` output redirection (claim C7) -/

/-- The two values `sys.stdout` takes around `pyMenuItem.execute`: the
process-wide original stream (`sys.__stdout__`) or the action-local
buffered view (`Terminal.pyMenuStdOut`). -/
inductive Stdout where
  | original
  | buffered
deriving DecidableEq, Repr

/-- The `sys.stdout` discipline of `pyMenuItem.execute` (source lines
121-136) for a callable action with resolved arguments, starting from the
original stream.  Returns (stream in effect while the action runs, stream
in effect when `execute` returns).  Non-threaded path: `sys.stdout =
Terminal.pyMenuStdOut()` before the call, `sys.stdout = sys.__stdout__`
after it; when the action raises, control jumps to the `except` block,
which writes its banner and returns WITHOUT executing the restore line.
Threaded path: no redirection at all. -/
def executeStdout (threaded : Bool) (raises : Bool) : Stdout × Stdout :=
  if threaded then
    (Stdout.original, Stdout.original)
  else
    if raises then (Stdout.buffered, Stdout.buffered)
    else (Stdout.buffered, Stdout.original)

/-! ## Horizontal layout in `pyMenu._draw` (claim C8) -/

/-- The `Ctrl` annotation `f'     Ctrl + {self.hotkey}'` included in each
child's drawn text when the parent bar has a hotkey (source line 288);
empty otherwise. -/
def ctrlAnnot (hotkey : Option String) : String :=
  match hotkey with
  | some k => "     Ctrl + " ++ k
  | none => ""

/-- The anchor points `item._location = [y+1, x]` assigned by
`pyMenu._draw` to the children of a Horizontal container anchored at
`(y, x)` (source lines 281-294).  The cursor advance per child is
`x = x + len(f"  {item.name}  |")` — independent of the hotkey annotation,
which is drawn but not counted. -/
def hChildAnchors (y x : Nat) (hotkey : Option String) :
    List String → List (Nat × Nat)
  | [] => []
  | n :: rest =>
    (y + 1, x) :: hChildAnchors y (x + ("  " ++ n ++ "  |").length) hotkey rest

/-! ## Terminal coordinate handling (claim C9) -/

/-- `Terminal.move_to` (terminal.py lines 12-18): clamps both coordinates
to at least 1 before writing the escape sequence. -/
def move_to (row col : Int) : Int × Int :=
  (max 1 row, max 1 col)

/-- The cursor coordinate `Terminal.clear_region` embeds in its escape
sequence (terminal.py lines 60-73): passed through with no clamping. -/
def clearRegionCursor (row colStart : Int) : Int × Int :=
  (row, colStart)

/-- The cursor coordinates dispatched by `pyMenu._erase` (source lines
318-331): `col_start = self._location[1] - 1`, one `clear_region` per row
`y` in `range(row_start, row_start + height + 1)`. -/
def eraseDispatches (row col : Int) (height : Nat) : List (Int × Int) :=
  (List.range (height + 1)).map
    (fun (k : Nat) => clearRegionCursor (row + (k : Int)) (col - 1))

/-! ## Basic lemmas about the heap, paths and `colapse_menu_tree` -/

theorem setIdx_self (f : List Nat → Int) (p : List Nat) (v : Int) :
    setIdx f p v p = v := by
  simp [setIdx]

theorem setIdx_ne (f : List Nat → Int) (p q : List Nat) (v : Int) (h : q ≠ p) :
    setIdx f p v q = f q := by
  simp [setIdx, h]

theorem prefix_dropLast_of_proper {q p : List Nat} (h : q <+: p) (hne : q ≠ p) :
    q <+: p.dropLast := by
  rw [List.dropLast_eq_take, List.prefix_take_iff]
  refine ⟨h, ?_⟩
  have hle : q.length ≤ p.length := h.length_le
  have hlt : q.length ≠ p.length := fun he => hne (h.eq_of_length he)
  omega

theorem prefix_snoc_cases {q p : List Nat} {j : Nat} (h : q <+: p ++ [j]) :
    q <+: p ∨ q = p ++ [j] := by
  by_cases hl : q.length ≤ p.length
  · exact Or.inl (List.prefix_of_prefix_length_le h (List.prefix_append p [j]) hl)
  · refine Or.inr (h.eq_of_length ?_)
    have hle := h.length_le
    simp only [List.length_append, List.length_singleton] at hle ⊢
    omega

theorem colapseIdx_eq_aux (n : Nat) :
    ∀ (p : List Nat), p.length ≤ n → ∀ (f : List Nat → Int) (q : List Nat),
      colapseIdx f p q = if q ≠ [] ∧ q <+: p then -1 else f q := by
  induction n with
  | zero =>
    intro p hp f q
    have hp0 : p = [] := List.length_eq_zero.mp (Nat.le_zero.mp hp)
    subst hp0
    simp only [colapseIdx, List.prefix_nil]
    split
    · next hq => exact absurd hq.2 hq.1
    · rfl
  | succ n ih =>
    intro p hp f q
    match p with
    | [] =>
      simp only [colapseIdx, List.prefix_nil]
      split
      · next hq => exact absurd hq.2 hq.1
      · rfl
    | i :: rest =>
      rw [colapseIdx]
      rw [ih (i :: rest).dropLast (by simp at hp ⊢; omega)]
      by_cases h1 : q ≠ [] ∧ q <+: (i :: rest).dropLast
      · rw [if_pos h1, if_pos ⟨h1.1, h1.2.trans ( List.dropLast_prefix _)⟩]
      · rw [if_neg h1]
        by_cases h2 : q = i :: rest
        · subst h2
          rw [setIdx_self, if_pos ⟨by simp, List.prefix_refl _⟩]
        · rw [setIdx_ne _ _ _ _ h2]
          rw [if_neg ?_]
          intro hq
          exact h1 ⟨hq.1, prefix_dropLast_of_proper hq.2 h2⟩

theorem colapseIdx_spec (f : List Nat → Int) (p q : List Nat) :
    colapseIdx f p q = if q ≠ [] ∧ q <+: p then -1 else f q :=
  colapseIdx_eq_aux p.length p le_rfl f q

theorem nodeAt_cons (i : Nat) (p : List Nat) (nm : String) (ty : MType)
    (cs : List Node) :
    nodeAt (i :: p) (Node.menu nm ty cs) =
      (cs.get? i).bind (fun c => nodeAt p c) := by
  cases h : cs.get? i with
  | none => simp only [nodeAt, h]; rfl
  | some c => simp only [nodeAt, h]; rfl

theorem nodeAt_append (p : List Nat) (j : Nat) (t : Node) :
    nodeAt (p ++ [j]) t =
      (nodeAt p t).bind (fun n =>
        match n with
        | Node.menu _ _ cs => cs.get? j
        | Node.item _ => none) := by
  induction p generalizing t with
  | nil =>
    cases t with
    | item nm => rfl
    | menu nm ty cs =>
      show nodeAt (j :: []) (Node.menu nm ty cs) = cs.get? j
      rw [nodeAt_cons]
      cases cs.get? j <;> rfl
  | cons i p ih =>
    cases t with
    | item nm => rfl
    | menu nm ty cs =>
      show nodeAt (i :: (p ++ [j])) (Node.menu nm ty cs) = _
      rw [nodeAt_cons, nodeAt_cons]
      cases cs.get? i with
      | none => rfl
      | some c => exact ih c

theorem menuAt_eq_some {t : Node} {p : List Nat} {nm : String} {ty : MType}
    {cs : List Node} (h : menuAt t p = some (nm, ty, cs)) :
    nodeAt p t = some (Node.menu nm ty cs) := by
  unfold menuAt at h
  split at h
  · next nm' ty' cs' heq =>
    injection h with h'
    injection h' with h1 h2
    injection h2 with h2 h3
    subst h1; subst h2; subst h3
    exact heq
  · exact absurd h (by simp)

theorem getCurrentItem_get {s : NavState} {p : List Nat} {cs : List Node}
    {j : Nat} {c : Node}
    (h : getCurrentItem s p cs = some (some (j, c))) :
    cs.get? j = some c := by
  unfold getCurrentItem at h
  split at h
  · exact absurd h (by simp)
  · split at h
    · exact absurd h (by simp)
    · next c' hc' =>
      split at h
      · exact absurd h (by simp)
      · injection h with h'
        injection h' with h''
        injection h'' with h1 h2
        subst h1; subst h2
        exact hc'

theorem navInv_init (t : Node) (hroot : rootValid t) : NavInv t initState := by
  refine ⟨?_, ?_, ?_⟩
  · intro p nm ty cs _
    simp only [initState]
    omega
  · intro c _ p _
    rfl
  · intro c hc q hq
    injection hc with hc
    subst hc
    have hq0 : q = [] := List.eq_nil_of_prefix_nil hq
    subst hq0
    obtain ⟨nm, ty, cs, ht, hcs⟩ := hroot
    exact ⟨nm, ty, cs, by rw [ht]; rfl, hcs⟩

theorem nodeAt_child {t : Node} {p : List Nat} {nm : String} {ty : MType}
    {cs : List Node} {j : Nat} {c : Node}
    (hp : nodeAt p t = some (Node.menu nm ty cs)) (hj : cs.get? j = some c) :
    nodeAt (p ++ [j]) t = some c := by
  rw [nodeAt_append, hp]
  exact hj

/-! ## Preservation of the invariants by each kind of state change -/

theorem navInv_setIdx_cur {t : Node} {s : NavState} {p : List Nat} {v : Int}
    (hInv : NavInv t s) (hcur : s.cur = some p)
    (hlo : -1 ≤ v)
    (hhi : ∀ nm ty cs, nodeAt p t = some (Node.menu nm ty cs) →
      v < (cs.length : Int)) :
    NavInv t ⟨setIdx s.idx p v, some p⟩ := by
  obtain ⟨hIdx, hOff, hCur⟩ := hInv
  refine ⟨?_, ?_, ?_⟩
  · intro q nm ty cs hq
    show -1 ≤ setIdx s.idx p v q ∧ setIdx s.idx p v q < (cs.length : Int)
    by_cases hqp : q = p
    · rw [hqp] at hq ⊢
      rw [setIdx_self]
      exact ⟨hlo, hhi nm ty cs hq⟩
    · rw [setIdx_ne _ _ _ _ hqp]
      exact hIdx q nm ty cs hq
  · intro c hc q hq
    obtain rfl : p = c := Option.some.inj hc
    show setIdx s.idx p v q = -1
    have hqp : q ≠ p := fun he => hq (he ▸ List.prefix_refl p)
    rw [setIdx_ne _ _ _ _ hqp]
    exact hOff p hcur q hq
  · intro c hc q hq
    obtain rfl : p = c := Option.some.inj hc
    exact hCur p hcur q hq

theorem navInv_leave {t : Node} {s : NavState} {p : List Nat}
    (hInv : NavInv t s) (hcur : s.cur = some p) :
    NavInv t ⟨setIdx s.idx p (-1), parentPath p⟩ := by
  obtain ⟨hIdx, hOff, hCur⟩ := hInv
  refine ⟨?_, ?_, ?_⟩
  · intro q nm ty cs hq
    show -1 ≤ setIdx s.idx p (-1) q ∧ setIdx s.idx p (-1) q < (cs.length : Int)
    by_cases hqp : q = p
    · rw [hqp, setIdx_self]
      have : (0:Int) ≤ (cs.length : Int) := Int.ofNat_nonneg _
      omega
    · rw [setIdx_ne _ _ _ _ hqp]
      exact hIdx q nm ty cs hq
  · intro c hc q hq
    cases p with
    | nil => simp [parentPath] at hc
    | cons i rest =>
      obtain rfl : (i :: rest).dropLast = c := Option.some.inj hc
      show setIdx s.idx (i :: rest) (-1) q = -1
      by_cases hqp : q = i :: rest
      · rw [hqp, setIdx_self]
      · rw [setIdx_ne _ _ _ _ hqp]
        apply hOff _ hcur q
        intro hpre
        exact hq (prefix_dropLast_of_proper hpre hqp)
  · intro c hc q hq
    cases p with
    | nil => simp [parentPath] at hc
    | cons i rest =>
      obtain rfl : (i :: rest).dropLast = c := Option.some.inj hc
      exact hCur _ hcur q (hq.trans ( List.dropLast_prefix _))

theorem navInv_enter {t : Node} {s : NavState} {p : List Nat} {j : Nat}
    {nm2 : String} {ty2 : MType} {ccs : List Node}
    (hInv : NavInv t s) (hcur : s.cur = some p)
    (hj : nodeAt (p ++ [j]) t = some (Node.menu nm2 ty2 ccs))
    (hcc : ccs ≠ []) :
    NavInv t ⟨s.idx, some (p ++ [j])⟩ := by
  obtain ⟨hIdx, hOff, hCur⟩ := hInv
  refine ⟨hIdx, ?_, ?_⟩
  · intro c hc q hq
    obtain rfl : p ++ [j] = c := Option.some.inj hc
    apply hOff p hcur
    intro hpre
    exact hq (hpre.trans (List.prefix_append p [j]))
  · intro c hc q hq
    obtain rfl : p ++ [j] = c := Option.some.inj hc
    rcases prefix_snoc_cases hq with hcase | hcase
    · exact hCur p hcur q hcase
    · subst hcase
      exact ⟨nm2, ty2, ccs, hj, hcc⟩

theorem navInv_colapse {t : Node} {s : NavState} {p : List Nat}
    (hroot : rootValid t) (hInv : NavInv t s) (hcur : s.cur = some p) :
    NavInv t ⟨colapseIdx s.idx p, some []⟩ := by
  obtain ⟨hIdx, hOff, hCur⟩ := hInv
  refine ⟨?_, ?_, ?_⟩
  · intro q nm ty cs hq
    show -1 ≤ colapseIdx s.idx p q ∧ colapseIdx s.idx p q < (cs.length : Int)
    rw [colapseIdx_spec]
    split
    · constructor
      · exact le_refl _
      · have : (0:Int) ≤ (cs.length : Int) := Int.ofNat_nonneg _
        omega
    · exact hIdx q nm ty cs hq
  · intro c hc q hq
    obtain rfl : ([] : List Nat) = c := Option.some.inj hc
    have hqne : q ≠ [] := by
      intro he
      subst he
      exact hq List.nil_prefix
    show colapseIdx s.idx p q = -1
    rw [colapseIdx_spec]
    split
    · rfl
    · next hcond =>
      apply hOff p hcur
      intro hpre
      exact hcond ⟨hqne, hpre⟩
  · intro c hc q hq
    obtain rfl : ([] : List Nat) = c := Option.some.inj hc
    have hq0 : q = [] := List.eq_nil_of_prefix_nil hq
    subst hq0
    obtain ⟨nm, ty, cs, ht, hcs⟩ := hroot
    exact ⟨nm, ty, cs, by rw [ht]; rfl, hcs⟩

theorem curMenu_nonempty {t : Node} {s : NavState} {p : List Nat}
    (hCur : CurInv t s) (hcur : s.cur = some p) {nm : String} {ty : MType}
    {cs : List Node} (hp : nodeAt p t = some (Node.menu nm ty cs)) :
    cs ≠ [] := by
  obtain ⟨nm', ty', cs', hp', hne⟩ := hCur p hcur p (List.prefix_refl p)
  rw [hp] at hp'
  injection hp' with hp'
  injection hp' with h1 h2 h3
  subst h3
  exact hne

theorem onUp_navInv {t : Node} {s s' : NavState} {p : List Nat} {evs : List Ev}
    (hInv : NavInv t s) (hcur : s.cur = some p)
    (h : onUp t s p = StepRes.cont s' evs) : NavInv t s' := by
  unfold onUp at h
  split at h
  · exact StepRes.noConfusion h
  · injection h with h1 h2
    subst h1
    exact hInv
  · split at h
    · injection h with h1 h2
      subst h1
      exact navInv_leave hInv hcur
    · next hgt =>
      injection h with h1 h2
      subst h1
      apply navInv_setIdx_cur hInv hcur (by omega)
      intro nm ty cs hq
      have hb := hInv.1 p nm ty cs hq
      omega

theorem onLeft_navInv {t : Node} {s s' : NavState} {p : List Nat} {evs : List Ev}
    (hInv : NavInv t s) (hcur : s.cur = some p)
    (h : onLeft t s p = StepRes.cont s' evs) : NavInv t s' := by
  unfold onLeft at h
  split at h
  · exact StepRes.noConfusion h
  · split at h
    · injection h with h1 h2
      subst h1
      apply navInv_setIdx_cur hInv hcur (by omega)
      intro nm ty cs hq
      have hne := curMenu_nonempty hInv.2.2 hcur hq
      have hpos := List.length_pos.mpr hne
      omega
    · next hgt =>
      injection h with h1 h2
      subst h1
      apply navInv_setIdx_cur hInv hcur (by omega)
      intro nm ty cs hq
      have hb := hInv.1 p nm ty cs hq
      omega
  · split at h
    · injection h with h1 h2
      subst h1
      exact navInv_leave hInv hcur
    · injection h with h1 h2
      subst h1
      exact hInv

theorem onDown_navInv {t : Node} {s s' : NavState} {p : List Nat} {evs : List Ev}
    (hInv : NavInv t s) (hcur : s.cur = some p)
    (h : onDown t s p = StepRes.cont s' evs) : NavInv t s' := by
  unfold onDown at h
  split at h
  · exact StepRes.noConfusion h
  · next nm0 cs0 heq =>
    split at h
    · exact StepRes.noConfusion h
    · injection h with h1 h2
      subst h1
      exact hInv
    · exact StepRes.noConfusion h
    · next j nm1 ty1 ccs hget =>
      split at h
      · next hpos =>
        injection h with h1 h2
        subst h1
        have hj := getCurrentItem_get hget
        refine navInv_enter hInv hcur (nodeAt_child (menuAt_eq_some heq) hj) ?_
        intro he
        subst he
        simp at hpos
      · injection h with h1 h2
        subst h1
        exact hInv
  · next nm0 cs0 heq =>
    injection h with h1 h2
    subst h1
    have hnode := menuAt_eq_some heq
    have hb := hInv.1 p nm0 MType.V cs0 hnode
    apply navInv_setIdx_cur hInv hcur (by split <;> omega)
    intro nm ty cs hq
    have hceq : cs = cs0 := by
      rw [hnode] at hq
      injection hq with hq
      injection hq with e1 e2 e3
      exact e3.symm
    subst hceq
    split <;> omega

theorem onRight_navInv {t : Node} {s s' : NavState} {p : List Nat} {evs : List Ev}
    (hInv : NavInv t s) (hcur : s.cur = some p)
    (h : onRight t s p = StepRes.cont s' evs) : NavInv t s' := by
  unfold onRight at h
  split at h
  · exact StepRes.noConfusion h
  · next nm0 cs0 heq =>
    split at h
    · next hlt =>
      injection h with h1 h2
      subst h1
      have hnode := menuAt_eq_some heq
      have hb := hInv.1 p nm0 MType.H cs0 hnode
      apply navInv_setIdx_cur hInv hcur (by omega)
      intro nm ty cs hq
      have hceq : cs = cs0 := by
        rw [hnode] at hq
        injection hq with hq
        injection hq with e1 e2 e3
        exact e3.symm
      subst hceq
      omega
    · injection h with h1 h2
      subst h1
      exact hInv
  · next nm0 cs0 heq =>
    split at h
    · exact StepRes.noConfusion h
    · next item? hget =>
      split at h
      · injection h with h1 h2
        subst h1
        apply navInv_setIdx_cur hInv hcur (by omega)
        intro nm ty cs hq
        have hne := curMenu_nonempty hInv.2.2 hcur hq
        have hpos := List.length_pos.mpr hne
        omega
      · split at h
        · next j nm1 ty1 ccs =>
          split at h
          · next hpos =>
            injection h with h1 h2
            subst h1
            have hj := getCurrentItem_get hget
            refine navInv_enter hInv hcur (nodeAt_child (menuAt_eq_some heq) hj) ?_
            intro he
            subst he
            simp at hpos
          · injection h with h1 h2
            subst h1
            exact hInv
        · injection h with h1 h2
          subst h1
          exact hInv

theorem onEnter_navInv {t : Node} {s s' : NavState} {p : List Nat} {evs : List Ev}
    (hroot : rootValid t) (hInv : NavInv t s) (hcur : s.cur = some p)
    (h : onEnter t s p = StepRes.cont s' evs) : NavInv t s' := by
  unfold onEnter at h
  split at h
  · exact StepRes.noConfusion h
  · next nm0 cs0 heq =>
    split at h
    · exact StepRes.noConfusion h
    · injection h with h1 h2
      subst h1
      exact hInv
    · exact StepRes.noConfusion h
    · next j nm1 ty1 ccs hget =>
      split at h
      · next hpos =>
        injection h with h1 h2
        subst h1
        have hj := getCurrentItem_get hget
        refine navInv_enter hInv hcur (nodeAt_child (menuAt_eq_some heq) hj) ?_
        intro he
        subst he
        simp at hpos
      · injection h with h1 h2
        subst h1
        exact hInv
  · next nm0 cs0 heq =>
    split at h
    · exact StepRes.noConfusion h
    · next item? hget =>
      split at h
      · injection h with h1 h2
        subst h1
        apply navInv_setIdx_cur hInv hcur (by omega)
        intro nm ty cs hq
        have hne := curMenu_nonempty hInv.2.2 hcur hq
        have hpos := List.length_pos.mpr hne
        omega
      · split at h
        · next j nm1 ty1 ccs =>
          split at h
          · next hpos =>
            injection h with h1 h2
            subst h1
            have hj := getCurrentItem_get hget
            refine navInv_enter hInv hcur (nodeAt_child (menuAt_eq_some heq) hj) ?_
            intro he
            subst he
            simp at hpos
          · injection h with h1 h2
            subst h1
            exact hInv
        · next j nm1 =>
          injection h with h1 h2
          subst h1
          exact navInv_colapse hroot hInv hcur
        · injection h with h1 h2
          subst h1
          exact hInv

theorem step_navInv {t : Node} {s s' : NavState} {k : Key} {evs : List Ev}
    (hroot : rootValid t) (hInv : NavInv t s)
    (h : step t s k = StepRes.cont s' evs) : NavInv t s' := by
  unfold step at h
  split at h
  · exact StepRes.noConfusion h
  · next p hcur =>
    cases k with
    | up => exact onUp_navInv hInv hcur h
    | down => exact onDown_navInv hInv hcur h
    | left => exact onLeft_navInv hInv hcur h
    | right => exact onRight_navInv hInv hcur h
    | enter => exact onEnter_navInv hroot hInv hcur h
    | esc =>
      injection h with h1 h2
      subst h1
      exact hInv
    | ch c =>
      injection h with h1 h2
      subst h1
      exact hInv

theorem reach_navInv {t : Node} (hroot : rootValid t) {s : NavState}
    (hs : Reach t s) : NavInv t s := by
  induction hs with
  | init => exact navInv_init t hroot
  | next hr hstep ih => exact step_navInv hroot ih hstep

theorem demoTree_rootValid : rootValid demoTree :=
  ⟨"root", MType.H, [Node.menu "File" MType.V [Node.item "Exit"]], rfl,
    List.cons_ne_nil _ _⟩

/-! ## Claim theorems -/

/-- C3: for every container `C` and every finite sequence of navigation keys
processed from the initial state, `C`'s selection index afterwards is either
`-1` or a valid index in `[0, childCount C - 1]`. -/
theorem C3_selection_index_in_range (t : Node) (hroot : rootValid t)
    (s : NavState) (hs : Reach t s) (p : List Nat) (nm : String) (ty : MType)
    (cs : List Node) (hp : nodeAt p t = some (Node.menu nm ty cs)) :
    s.idx p = -1 ∨ (0 ≤ s.idx p ∧ s.idx p < (cs.length : Int)) := by
  have hb := (reach_navInv hroot hs).1 p nm ty cs hp
  omega

theorem C3_selection_index_in_range_witness :
    initState.idx [] = -1 ∨
      (0 ≤ initState.idx [] ∧
        initState.idx [] <
          (([Node.menu "File" MType.V [Node.item "Exit"]] : List Node).length :
            Int)) :=
  C3_selection_index_in_range demoTree demoTree_rootValid initState Reach.init
    [] "root" MType.H [Node.menu "File" MType.V [Node.item "Exit"]] rfl

/-- C4: after every key transition, every container that is not on the
current focus path (a path-prefix of the focused container's path) has
selection index `-1`. -/
theorem C4_off_path_reset (t : Node) (hroot : rootValid t)
    (s : NavState) (hs : Reach t s) (c : List Nat) (hc : s.cur = some c)
    (p : List Nat) (nm : String) (ty : MType) (cs : List Node)
    (_hp : nodeAt p t = some (Node.menu nm ty cs)) (hnp : ¬ p <+: c) :
    s.idx p = -1 :=
  (reach_navInv hroot hs).2.1 c hc p hnp

theorem C4_off_path_reset_witness : initState.idx [0] = -1 :=
  C4_off_path_reset demoTree demoTree_rootValid initState Reach.init [] rfl
    [0] "File" MType.V [Node.item "Exit"] rfl
    (fun hpre => absurd (List.eq_nil_of_prefix_nil hpre) (by simp))

theorem step_eq_onLeft (t : Node) (s : NavState) (p : List Nat)
    (hcur : s.cur = some p) : step t s Key.left = onLeft t s p := by
  unfold step
  rw [hcur]

theorem step_eq_onDown (t : Node) (s : NavState) (p : List Nat)
    (hcur : s.cur = some p) : step t s Key.down = onDown t s p := by
  unfold step
  rw [hcur]

theorem step_eq_onEnter (t : Node) (s : NavState) (p : List Nat)
    (hcur : s.cur = some p) : step t s Key.enter = onEnter t s p := by
  unfold step
  rw [hcur]

theorem onLeft_H (t : Node) (s : NavState) (p : List Nat) (nm : String)
    (cs : List Node) (hmenu : menuAt t p = some (nm, MType.H, cs)) :
    onLeft t s p =
      if s.idx p ≤ 0 then StepRes.cont ⟨setIdx s.idx p 0, some p⟩ []
      else StepRes.cont ⟨setIdx s.idx p (s.idx p - 1), some p⟩ [] := by
  unfold onLeft
  rw [hmenu]

/-- C10: on a focused Horizontal container whose selection index is `-1`,
the LEFT key (via `_dec_current_index`) sets the selection index to `0` —
the first child — and focus does not change (no draw or erase happens
either). -/
theorem C10_left_horizontal_unselected (t : Node) (s : NavState)
    (p : List Nat) (nm : String) (cs : List Node)
    (hcur : s.cur = some p) (hmenu : menuAt t p = some (nm, MType.H, cs))
    (hidx : s.idx p = -1) :
    step t s Key.left = StepRes.cont ⟨setIdx s.idx p 0, some p⟩ [] ∧
      setIdx s.idx p 0 p = 0 := by
  constructor
  · rw [step_eq_onLeft t s p hcur, onLeft_H t s p nm cs hmenu,
      if_pos (by omega : s.idx p ≤ 0)]
  · exact setIdx_self _ _ _

theorem C10_left_horizontal_unselected_witness :
    step demoTree initState Key.left =
      StepRes.cont ⟨setIdx initState.idx [] 0, some []⟩ [] ∧
      setIdx initState.idx [] 0 [] = 0 :=
  C10_left_horizontal_unselected demoTree initState [] "root"
    [Node.menu "File" MType.V [Node.item "Exit"]] rfl rfl rfl

/-- C2 (amended): pressing ESC in any state — in particular at the root —
does not end the navigation loop: the `show` loop body handles only
UP, RIGHT, LEFT, DOWN and ENTER, so ESC falls through every branch and the
loop continues with the state unchanged; `show` has no normal
termination. -/
theorem C2_esc_continues (t : Node) (s : NavState) (p : List Nat)
    (hcur : s.cur = some p) :
    step t s Key.esc = StepRes.cont s [] := by
  unfold step
  rw [hcur]

theorem C2_esc_continues_witness :
    step demoTree initState Key.esc = StepRes.cont initState [] :=
  C2_esc_continues demoTree initState [] rfl

/-- C2 counterexample: with focus at the root container (which has no
parent), ESC does not terminate the loop — the step result is a continuing
state identical to the one before, refuting "ESC at the root ends the
navigation loop". -/
theorem C2_counterexample :
    initState.cur = some [] ∧
      step demoTree initState Key.esc = StepRes.cont initState [] :=
  ⟨rfl, rfl⟩

theorem getCurrentItem_of_valid {s : NavState} {p : List Nat} {cs : List Node}
    {c : Node} (hroot : s.idx [] ≠ -1) (hi : 0 ≤ s.idx p)
    (hget : cs.get? (s.idx p).toNat = some c) :
    getCurrentItem s p cs = some (some ((s.idx p).toNat, c)) := by
  have hnat : (s.idx p).toNat < cs.length := by
    rcases List.get?_eq_some.mp hget with ⟨hlt, _⟩
    exact hlt
  have hpy : pyIndexPos cs.length (s.idx p) = some (s.idx p).toNat := by
    unfold pyIndexPos
    rw [if_pos hi, if_pos (by omega : s.idx p < (cs.length : Int))]
  unfold getCurrentItem
  rw [hpy]
  show (match cs.get? (s.idx p).toNat with
    | none => none
    | some c =>
      if s.idx [] = -1 then some none
      else some (some ((s.idx p).toNat, c))) = _
  rw [hget]
  show (if s.idx [] = -1 then some none
    else some (some ((s.idx p).toNat, c))) = _
  rw [if_neg hroot]

theorem onDown_H_child (t : Node) (s : NavState) (p : List Nat) (nm : String)
    (cs : List Node) (j : Nat) (nm2 : String) (ty2 : MType) (ccs : List Node)
    (hmenu : menuAt t p = some (nm, MType.H, cs))
    (hget : getCurrentItem s p cs = some (some (j, Node.menu nm2 ty2 ccs))) :
    onDown t s p =
      if ccs.length > 0 then
        StepRes.cont ⟨s.idx, some (p ++ [j])⟩ [Ev.draw (p ++ [j])]
      else StepRes.cont s [] := by
  unfold onDown
  rw [hmenu]
  show (match getCurrentItem s p cs with
    | none => StepRes.crash
    | some none => StepRes.cont s []
    | some (some (_, Node.item _)) => StepRes.crash
    | some (some (j, Node.menu _ _ ccs)) =>
      if ccs.length > 0 then
        StepRes.cont ⟨s.idx, some (p ++ [j])⟩ [Ev.draw (p ++ [j])]
      else StepRes.cont s []) = _
  rw [hget]

theorem onEnter_V_item (t : Node) (s : NavState) (p : List Nat) (nm : String)
    (cs : List Node) (j : Nat) (name : String)
    (hmenu : menuAt t p = some (nm, MType.V, cs))
    (hget : getCurrentItem s p cs = some (some (j, Node.item name)))
    (hne : ¬ s.idx p = -1) :
    onEnter t s p =
      StepRes.cont ⟨colapseIdx s.idx p, some []⟩
        (colapseEvs p ++ [Ev.exec name, Ev.draw []]) := by
  unfold onEnter
  rw [hmenu]
  show (match getCurrentItem s p cs with
    | none => StepRes.crash
    | some item? =>
      if s.idx p = -1 then
        StepRes.cont ⟨setIdx s.idx p 0, some p⟩ []
      else
        match item? with
        | some (j, Node.menu _ _ ccs) =>
          if ccs.length > 0 then
            StepRes.cont ⟨s.idx, some (p ++ [j])⟩ [Ev.draw (p ++ [j])]
          else StepRes.cont s []
        | some (_, Node.item nm) =>
          StepRes.cont ⟨colapseIdx s.idx p, some []⟩
            (colapseEvs p ++ [Ev.exec nm, Ev.draw []])
        | none => StepRes.cont s []) = _
  rw [hget]
  show (if s.idx p = -1 then
      StepRes.cont ⟨setIdx s.idx p 0, some p⟩ []
    else
      StepRes.cont ⟨colapseIdx s.idx p, some []⟩
        (colapseEvs p ++ [Ev.exec name, Ev.draw []])) = _
  rw [if_neg hne]

/-- C1 (amended): for a focused Vertical container `F` whose selected child
is an ActionItem (with a valid selection, and the root object's index not
-1, which `_get_current_item` checks), ENTER collapses the focus path by
erasing every container from `F` up to but NOT including the root (their
selection indices reset to -1), invokes the item, and on return focus is
the root container — whose own selection index is left unchanged rather
than reset to -1. -/
theorem C1_enter_action_item (t : Node) (s : NavState) (p : List Nat)
    (nm name : String) (cs : List Node)
    (hcur : s.cur = some p) (hmenu : menuAt t p = some (nm, MType.V, cs))
    (hroot : s.idx [] ≠ -1) (hi : 0 ≤ s.idx p)
    (hget : cs.get? (s.idx p).toNat = some (Node.item name)) :
    step t s Key.enter =
      StepRes.cont ⟨colapseIdx s.idx p, some []⟩
        (colapseEvs p ++ [Ev.exec name, Ev.draw []]) ∧
    colapseIdx s.idx p [] = s.idx [] ∧
    (∀ q, q ≠ [] → q <+: p → colapseIdx s.idx p q = -1) := by
  refine ⟨?_, ?_, ?_⟩
  · rw [step_eq_onEnter t s p hcur]
    exact onEnter_V_item t s p nm cs (s.idx p).toNat name hmenu
      (getCurrentItem_of_valid hroot hi hget) (by omega)
  · rw [colapseIdx_spec, if_neg (by simp)]
  · intro q hq1 hq2
    rw [colapseIdx_spec, if_pos ⟨hq1, hq2⟩]

theorem C1_enter_action_item_witness :
    step demoTree demoStateFile Key.enter =
      StepRes.cont ⟨colapseIdx demoStateFile.idx [0], some []⟩
        (colapseEvs [0] ++ [Ev.exec "Exit", Ev.draw []]) ∧
    colapseIdx demoStateFile.idx [0] [] = demoStateFile.idx [] ∧
    (∀ q, q ≠ [] → q <+: [0] → colapseIdx demoStateFile.idx [0] q = -1) :=
  C1_enter_action_item demoTree demoStateFile [0] "File" "Exit"
    [Node.item "Exit"] rfl rfl (by decide) (by decide) rfl

/-- C1 counterexample: concrete tree root → File → Exit, root's selection
0, `File` focused with `Exit` selected.  ENTER collapses (erasing `File`)
and focus returns to the root, but the root's selection index is still 0 —
not -1 as the claim requires. -/
theorem C1_counterexample :
    step demoTree demoStateFile Key.enter =
      StepRes.cont ⟨colapseIdx demoIdx [0], some []⟩
        (colapseEvs [0] ++ [Ev.exec "Exit", Ev.draw []]) ∧
    colapseIdx demoIdx [0] [] = 0 := by
  constructor
  · rfl
  · rw [colapseIdx_spec, if_neg (by simp)]
    rfl

/-- C6 (amended): on a focused Horizontal container with a valid selection
whose selected child is a Container with at least one child (and, as
`_get_current_item` checks, the root object's selection index is not -1),
DOWN moves focus into that child and draws it; the index heap is unchanged,
so the child's selection index keeps its previous value — it is NOT set
to 0. -/
theorem C6_down_enter_child (t : Node) (s : NavState) (p : List Nat)
    (nm nm2 : String) (ty2 : MType) (cs ccs : List Node)
    (hcur : s.cur = some p) (hmenu : menuAt t p = some (nm, MType.H, cs))
    (hroot : s.idx [] ≠ -1) (hi : 0 ≤ s.idx p)
    (hget : cs.get? (s.idx p).toNat = some (Node.menu nm2 ty2 ccs))
    (hcc : ccs ≠ []) :
    step t s Key.down =
      StepRes.cont ⟨s.idx, some (p ++ [(s.idx p).toNat])⟩
        [Ev.draw (p ++ [(s.idx p).toNat])] := by
  rw [step_eq_onDown t s p hcur,
    onDown_H_child t s p nm cs (s.idx p).toNat nm2 ty2 ccs hmenu
      (getCurrentItem_of_valid hroot hi hget),
    if_pos (List.length_pos.mpr hcc)]

theorem C6_down_enter_child_witness :
    step demoTree demoStateRoot Key.down =
      StepRes.cont
        ⟨demoStateRoot.idx, some ([] ++ [(demoStateRoot.idx []).toNat])⟩
        [Ev.draw ([] ++ [(demoStateRoot.idx []).toNat])] :=
  C6_down_enter_child demoTree demoStateRoot [] "root" "File" MType.V
    [Node.menu "File" MType.V [Node.item "Exit"]] [Node.item "Exit"] rfl rfl
    (by decide) (by decide) rfl (List.cons_ne_nil _ _)

/-- C6 counterexample: DOWN at the root bar with the submenu `File`
selected (root index 0, `File` index -1) moves focus into `File` and draws
it, but `File`'s selection index is still -1 afterwards — the claim's
"sets the child's selection index to 0" is false. -/
theorem C6_counterexample :
    step demoTree demoStateRoot Key.down =
      StepRes.cont ⟨demoStateRoot.idx, some [0]⟩ [Ev.draw [0]] ∧
    demoStateRoot.idx [0] = -1 :=
  ⟨rfl, rfl⟩

/-- C5: the claim says attaching fails with `InvalidAttach` when the child
already has a parent or the parent already has a child of the same name.
The code has no failure path at all: evaluated at the failing input — a
menu already holding a child named `A`, attaching a second child named `A`
that already has a parent — `add_item` silently replaces the stored child
in place (the item count stays 1) and assigns the new child `_index = 1`
(the pre-insertion length) even though it sits at position 0. -/
theorem C5_add_item_no_failure :
    add_item ⟨"Root", 8, [("A", ⟨"A", 0, true⟩)]⟩ ⟨"A", -1, true⟩ =
      (⟨"Root", 8, [("A", ⟨"A", 1, true⟩)]⟩, ⟨"A", 1, true⟩) ∧
    (add_item ⟨"Root", 8, [("A", ⟨"A", 0, true⟩)]⟩
        ⟨"A", -1, true⟩).1.items.length = 1 := by
  constructor
  · rfl
  · rfl

/-- C7 (amended): for a non-threaded invocation the output stream is
redirected to the buffered view for the duration of the call, but it is
restored ONLY on the normal return path: when the action raises, `execute`
returns with `sys.stdout` still pointing at the buffered view. -/
theorem C7_stdout_restored_iff_no_raise (raises : Bool) :
    (executeStdout false raises).1 = Stdout.buffered ∧
    ((executeStdout false raises).2 = Stdout.original ↔ raises = false) := by
  cases raises <;> exact (by decide)

theorem C7_stdout_restored_iff_no_raise_witness :
    (executeStdout false true).1 = Stdout.buffered ∧
    ((executeStdout false true).2 = Stdout.original ↔ true = false) :=
  C7_stdout_restored_iff_no_raise true

/-- C7 counterexample: a non-threaded action that raises leaves the
redirection in place — `execute` returns with the buffered view still
installed, so the original stream is NOT restored on the exception exit
path. -/
theorem C7_counterexample :
    (executeStdout false true).2 = Stdout.buffered ∧
    (executeStdout false true).2 ≠ Stdout.original := by
  decide

theorem hAdvance_eq (n : String) : ("  " ++ n ++ "  |").length = n.length + 5 := by
  have h2 : ("  " : String).length = 2 := rfl
  have h3 : ("  |" : String).length = 3 := rfl
  simp [String.length_append, h2, h3]
  omega

/-- C8 (amended): for a Horizontal parent at `(y, x)`, the child at index
`i` is anchored at row `y + 1` and column `x` plus the running sum of
`name length + 5` over children `0..i-1`; the hotkey annotation — although
drawn into the bar — contributes nothing to the advance (the result does
not depend on the hotkey at all). -/
theorem C8_h_layout (y x : Nat) (hk : Option String) (names : List String)
    (i : Nat) (h : i < names.length) :
    (hChildAnchors y x hk names).get? i =
      some (y + 1, x + ((names.take i).map (fun n => n.length + 5)).sum) := by
  induction names generalizing x i with
  | nil => simp at h
  | cons n rest ih =>
    cases i with
    | zero => simp [hChildAnchors]
    | succ i =>
      have hlt : i < rest.length := by simpa using h
      show (hChildAnchors y (x + ("  " ++ n ++ "  |").length) hk rest).get? i = _
      rw [ih (x + ("  " ++ n ++ "  |").length) i hlt, hAdvance_eq]
      simp [List.sum_cons]
      omega

theorem C8_h_layout_witness :
    (hChildAnchors 2 3 (some "F") ["A", "B"]).get? 1 =
      some (2 + 1, 3 + ((["A", "B"].take 1).map
        (fun n => n.length + 5)).sum) :=
  C8_h_layout 2 3 (some "F") ["A", "B"] 1 (by decide)

/-- C8 counterexample: with the parent's hotkey present (annotation
`     Ctrl + F`, 13 characters) the second child is still anchored at
column `3 + (len "A" + 5) = 9`; the anchors are identical with and without
the hotkey, so the claimed contribution of the hotkey annotation length to
the rendered width (which would put the column at ≥ 3 + 1 + 13 = 17) is
false. -/
theorem C8_counterexample :
    hChildAnchors 2 3 (some "F") ["A", "B"] = [(3, 3), (3, 9)] ∧
    hChildAnchors 2 3 none ["A", "B"] = hChildAnchors 2 3 (some "F") ["A", "B"] ∧
    (ctrlAnnot (some "F")).length = 13 ∧ 9 < 3 + 1 + 13 := by
  refine ⟨rfl, rfl, rfl, by decide⟩

/-- C9 (amended): `Terminal.move_to` clamps its row and column to ≥ 1, but
`Terminal.clear_region` dispatches its cursor coordinate unclamped, so the
erase of a container anchored at column 1 dispatches column 0. -/
theorem C9_move_to_clamped_clear_region_not (r c row : Int) (height : Nat) :
    1 ≤ (move_to r c).1 ∧ 1 ≤ (move_to r c).2 ∧
    clearRegionCursor row 0 = (row, 0) ∧
    (row, 0) ∈ eraseDispatches row 1 height := by
  refine ⟨le_max_left _ _, le_max_left _ _, rfl, ?_⟩
  unfold eraseDispatches
  apply List.mem_map.mpr
  refine ⟨0, ?_, ?_⟩
  · simp [List.mem_range]
  · simp [clearRegionCursor]

theorem C9_move_to_clamped_clear_region_not_witness :
    1 ≤ (move_to (-5) 0).1 ∧ 1 ≤ (move_to (-5) 0).2 ∧
    clearRegionCursor 1 0 = (1, 0) ∧
    (1, 0) ∈ eraseDispatches 1 1 2 :=
  C9_move_to_clamped_clear_region_not (-5) 0 1 2

/-- C9 counterexample: erasing a container anchored at `(1, 1)` of height
2 dispatches a `clear_region` cursor coordinate with column 0, below the
claimed minimum of 1. -/
theorem C9_counterexample :
    (1, 0) ∈ eraseDispatches 1 1 2 ∧ ¬ (1 : Int) ≤ 0 := by
  decide
